import Mathlib

/-!
Shallow embedding of `src/app.py` (FedEx & UPS Charge Extractor).

Modelling conventions:
* A pandas cell is `Cell`: `na` models NaN/missing, `str` a text cell, `num` a
  numeric cell (rationals stand in for floats; the program only adds, so no
  floating-point rounding is observable at the level of the claims).
* A dataframe is `Table`: a list of column names plus rows given positionally.
* `pd.to_numeric(_, errors="coerce")` maps a `num` cell to itself and any other
  cell to `na` (a numeric-looking string is modelled as a `num` cell, as pandas
  type inference produces on read).
* pandas `pivot_table` is built on `groupby`, which silently drops any row
  whose grouping keys (the two index keys and the columns key) contain NA;
  `pivotKeeps`/`pivotRows` model that drop before grouping.
* pandas `pivot_table` sorts group keys ascending; `cellLe`/`keyLe` model the
  comparison, and sorting is `List.insertionSort` (a stable sort, matching pandas).
-/

inductive Cell where
  | na : Cell
  | str : String → Cell
  | num : ℚ → Cell
deriving DecidableEq, Repr

structure Table where
  cols : List String
  data : List (List Cell)
deriving DecidableEq, Repr

/-- Model of `row.get(c, d)` and `df[c]` on a positional row: value of the first column
named `c`, or the default `d` when no column matches (or the row is short). -/
def getCellD : List String → List Cell → String → Cell → Cell
  | [], _, _, d => d
  | _ :: _, [], _, d => d
  | c0 :: cs, v :: vs, c, d => if c0 = c then v else getCellD cs vs c d

/-- Python-dict association list: first binding of a key wins on lookup. -/
def assocGet : List (String × Cell) → String → Option Cell
  | [], _ => none
  | (k0, v) :: rest, k => if k0 = k then some v else assocGet rest k

/-- Model of `d[k] = v` on a Python dict: overwrite in place if the key exists
(keeping its position), otherwise append at the end. -/
def upsert (k : String) (v : Cell) : List (String × Cell) → List (String × Cell)
  | [] => [(k, v)]
  | (k0, v0) :: rest => if k0 = k then (k, v) :: rest else (k0, v0) :: upsert k v rest

/-- Model of `pd.isna` on a cell. -/
def isNA : Cell → Bool
  | Cell.na => true
  | _ => false

/-- Cell access on `pd.DataFrame(rows)`: a key a row never set reads as NaN. -/
def lookupNA (r : List (String × Cell)) (k : String) : Cell :=
  (assocGet r k).getD Cell.na

/-- Model of `pd.to_numeric(_, errors="coerce")` on one cell. -/
def coerceCell : Cell → Option ℚ
  | Cell.num q => some q
  | _ => none

/-- The coerced cell written back into the dataframe. -/
def toNumCell (c : Cell) : Cell :=
  match coerceCell c with
  | some q => Cell.num q
  | none => Cell.na

theorem assocGet_upsert (k k' : String) (v : Cell) (l : List (String × Cell)) :
    assocGet (upsert k v l) k' = if k = k' then some v else assocGet l k' := by
  induction l with
  | nil => simp [upsert, assocGet]
  | cons p rest ih =>
    obtain ⟨k0, v0⟩ := p
    by_cases h0 : k0 = k
    · subst h0
      simp only [upsert, if_pos rfl, assocGet]
      by_cases h1 : k0 = k' <;> simp [h1]
    · simp only [upsert, if_neg h0, assocGet]
      by_cases h1 : k0 = k'
      · subst h1
        have hk : ¬ k = k0 := fun he => h0 he.symm
        simp [assocGet, hk]
      · simp [h1, ih]

theorem getCellD_not_mem (cols : List String) (row : List Cell) (c : String) (d : Cell)
    (h : c ∉ cols) : getCellD cols row c d = d := by
  induction cols generalizing row with
  | nil => cases row <;> rfl
  | cons c0 cs ih =>
    cases row with
    | nil => rfl
    | cons v vs =>
      have hc : c0 ≠ c := fun he => h (he ▸ List.mem_cons_self c0 cs)
      simp only [getCellD, if_neg hc]
      exact ih vs (fun hm => h (List.mem_cons_of_mem _ hm))

/-! ### Ordering on cells, modelling the ascending pandas sort of group keys -/

def cellLe : Cell → Cell → Prop
  | Cell.na, _ => True
  | Cell.str _, Cell.na => False
  | Cell.str s, Cell.str t => s.data ≤ t.data
  | Cell.str _, Cell.num _ => True
  | Cell.num _, Cell.na => False
  | Cell.num _, Cell.str _ => False
  | Cell.num p, Cell.num q => p ≤ q

instance : DecidableRel cellLe := fun a b => by
  cases a <;> cases b <;> simp only [cellLe] <;> infer_instance

theorem cellLe_total (a b : Cell) : cellLe a b ∨ cellLe b a := by
  cases a <;> cases b <;> simp [cellLe] <;> exact le_total _ _

theorem cellLe_trans {a b c : Cell} (h1 : cellLe a b) (h2 : cellLe b c) : cellLe a c := by
  cases a <;> cases b <;> cases c <;>
    simp only [cellLe] at h1 h2 ⊢ <;> try trivial
  · exact le_trans h1 h2
  · exact le_trans h1 h2

theorem strData_antisymm {s t : String} (h1 : s.data ≤ t.data) (h2 : t.data ≤ s.data) :
    s = t := by
  cases s with
  | mk ls =>
    cases t with
    | mk lt => exact congrArg String.mk (le_antisymm h1 h2)

theorem cellLe_antisymm {a b : Cell} (h1 : cellLe a b) (h2 : cellLe b a) : a = b := by
  cases a <;> cases b <;> simp only [cellLe] at h1 h2 <;> try rfl
  · exact congrArg Cell.str (strData_antisymm h1 h2)
  · exact congrArg Cell.num (le_antisymm h1 h2)

def cellLt (a b : Cell) : Prop := cellLe a b ∧ a ≠ b

/-- Lexicographic order on a pandas MultiIndex key pair. -/
def keyLe (a b : Cell × Cell) : Prop :=
  cellLt a.1 b.1 ∨ (a.1 = b.1 ∧ cellLe a.2 b.2)

instance : DecidableRel cellLt := fun a b => by unfold cellLt; infer_instance

instance : DecidableRel keyLe := fun a b => by unfold keyLe; infer_instance

instance : IsTotal (Cell × Cell) keyLe where
  total := by
    intro a b
    by_cases h : a.1 = b.1
    · rcases cellLe_total a.2 b.2 with h2 | h2
      · exact Or.inl (Or.inr ⟨h, h2⟩)
      · exact Or.inr (Or.inr ⟨h.symm, h2⟩)
    · rcases cellLe_total a.1 b.1 with h1 | h1
      · exact Or.inl (Or.inl ⟨h1, h⟩)
      · exact Or.inr (Or.inl ⟨h1, fun he => h he.symm⟩)

instance : IsTrans (Cell × Cell) keyLe where
  trans := by
    intro a b c hab hbc
    rcases hab with ⟨h1, hne1⟩ | ⟨he1, h2⟩ <;>
      rcases hbc with ⟨h1', hne1'⟩ | ⟨he1', h2'⟩
    · refine Or.inl ⟨cellLe_trans h1 h1', fun he => hne1 ?_⟩
      exact cellLe_antisymm h1 (he ▸ h1')
    · exact Or.inl ⟨he1' ▸ h1, he1' ▸ hne1⟩
    · refine Or.inl ⟨he1 ▸ h1', he1 ▸ hne1'⟩
    · exact Or.inr ⟨he1.trans he1', cellLe_trans h2 h2'⟩

/-! ### UPS pipeline (`process_ups` in `src/app.py`) -/

def charge_col : String := "Charge Description"
def amount_col : String := "DTrans Amount"
def lead_col : String := "Lead Shipment Number"
def ref_col : String := "Shipment Reference Number 1"
def ups_base_cols : List String := [lead_col, ref_col, charge_col, amount_col]

/-- Python whitespace for `str.strip`. -/
def isSpace (c : Char) : Bool :=
  c == ' ' || c == '\t' || c == '\n' || c == '\r' || c == '\x0b' || c == '\x0c'

/-- Python `str.strip()`: drop whitespace from both ends. -/
def pyStrip (s : String) : String :=
  String.mk (((s.data.dropWhile isSpace).reverse.dropWhile isSpace).reverse)

/-- Model of `df.columns = df.columns.str.strip()` — mutates headers in place. -/
def stripHeaders (t : Table) : Table :=
  { cols := t.cols.map pyStrip, data := t.data }

/-- Cellwise effect of `df[amount_col] = pd.to_numeric(df[amount_col], errors="coerce")`. -/
def coerceRow : List String → List Cell → List Cell
  | _, [] => []
  | [], v :: vs => v :: vs
  | c0 :: cs, v :: vs => (if c0 = amount_col then toNumCell v else v) :: coerceRow cs vs

def coerceTable (t : Table) : Table :=
  { cols := t.cols, data := t.data.map (coerceRow t.cols) }

def rowKey (cols : List String) (r : List Cell) : Cell × Cell :=
  (getCellD cols r lead_col Cell.na, getCellD cols r ref_col Cell.na)

def rowCharge (cols : List String) (r : List Cell) : Cell :=
  getCellD cols r charge_col Cell.na

/-- The coerced amount of a row, as a summand: NaN contributes nothing. -/
def rowAmount (cols : List String) (r : List Cell) : ℚ :=
  (coerceCell (getCellD cols r amount_col Cell.na)).getD 0

/-- Model of `filtered_df = df[df[charge_col].isin(selected_charges)]`. -/
def filteredRows (t : Table) (sel : List Cell) : List (List Cell) :=
  t.data.filter (fun r => sel.contains (rowCharge t.cols r))

/-- Whether `pivot_table` keeps a row: it is built on `groupby`, which drops
any row with NA in a grouping key — the two index keys
(`Lead Shipment Number`, `Shipment Reference Number 1`) and the columns key
(`Charge Description`). -/
def pivotKeeps (cols : List String) (r : List Cell) : Bool :=
  !(isNA (getCellD cols r lead_col Cell.na))
    && !(isNA (getCellD cols r ref_col Cell.na))
    && !(isNA (getCellD cols r charge_col Cell.na))

/-- The filtered rows the pivot aggregates: rows with a NaN grouping key are
silently dropped, so they contribute to no pivot row. -/
def pivotRows (t : Table) (sel : List Cell) : List (List Cell) :=
  (filteredRows t sel).filter (pivotKeeps t.cols)

/-- Row index of the pivot: distinct shipment keys of the kept rows, sorted
ascending (pandas `pivot_table` sorts group keys). -/
def pivotKeys (t : Table) (sel : List Cell) : List (Cell × Cell) :=
  List.insertionSort keyLe (((pivotRows t sel).map (rowKey t.cols)).dedup)

/-- Columns of the pivot: distinct charge descriptions of the kept rows,
sorted ascending. -/
def pivotCats (t : Table) (sel : List Cell) : List Cell :=
  List.insertionSort cellLe (((pivotRows t sel).map (rowCharge t.cols)).dedup)

/-- The kept rows falling in one (shipment key, charge description) bucket. -/
def cellGroup (t : Table) (sel : List Cell) (k : Cell × Cell) (c : Cell) : List (List Cell) :=
  (pivotRows t sel).filter
    (fun r => decide (rowKey t.cols r = k ∧ rowCharge t.cols r = c))

/-- One cell of `pivot_table(..., aggfunc="sum")`: NaN when the bucket is empty,
otherwise the NaN-skipping sum of the amounts in the bucket. -/
def pivotCell (t : Table) (sel : List Cell) (k : Cell × Cell) (c : Cell) : Option ℚ :=
  if cellGroup t sel k c = [] then none
  else some (((cellGroup t sel k c).map (rowAmount t.cols)).sum)

structure PivotRow where
  key : Cell × Cell
  cells : List (Cell × Option ℚ)
  total : ℚ
deriving DecidableEq, Repr

/-- The `Total` column of one pivot row:
`pivot_df[numeric_cols].apply(pd.to_numeric, ...).sum(axis=1)` — the
NaN-skipping sum across the category cells of that row. -/
def pivotTotal (t : Table) (sel : List Cell) (k : Cell × Cell) : ℚ :=
  ((pivotCats t sel).map (fun c => (pivotCell t sel k c).getD 0)).sum

/-- The pivoted view: one row per key, one cell per category, plus `Total`. -/
def upsPivot (t : Table) (sel : List Cell) : List PivotRow :=
  (pivotKeys t sel).map (fun k =>
    { key := k
      cells := (pivotCats t sel).map (fun c => (c, pivotCell t sel k c))
      total := pivotTotal t sel k })

inductive UpsResult where
  | raised (msg : String)
  | missingCols (found : List String)
  | idle
  | rendered (piv : List PivotRow)
deriving DecidableEq, Repr

/-- Model of `process_ups`, with the dataframe passed as explicit state: the first
component of the result is the dataframe as the caller sees it afterwards.
Order of effects follows the source: strip headers (line 66), coerce the
amount column (line 70, a KeyError if `DTrans Amount` is absent), then the
required-column check (line 74), then the selection gate and pivot. -/
def process_ups (t : Table) (sel : List Cell) : Table × UpsResult :=
  if amount_col ∈ (stripHeaders t).cols then
    if ups_base_cols.all (fun c => decide (c ∈ (coerceTable (stripHeaders t)).cols)) then
      if sel = [] then (coerceTable (stripHeaders t), UpsResult.idle)
      else (coerceTable (stripHeaders t),
            UpsResult.rendered (upsPivot (coerceTable (stripHeaders t)) sel))
    else (coerceTable (stripHeaders t),
          UpsResult.missingCols (coerceTable (stripHeaders t)).cols)
  else (stripHeaders t, UpsResult.raised "KeyError: DTrans Amount")

def renderedPivot : UpsResult → List PivotRow
  | UpsResult.rendered p => p
  | _ => []

/-! ### FedEx pipeline (`process_fedex` in `src/app.py`) -/

/-- Output column name for a charge description: the value suffixed with the PL-DZ tag. -/
def fedexTag (s : String) : String := s ++ " (PL-DZ)"

/-- Python string interpolation of a cell value. -/
def cellToString : Cell → String
  | Cell.na => "nan"
  | Cell.str s => s
  | Cell.num q => toString q

/-- Whether `pat` occurs at the start of `s` (character lists). -/
def charsStartWith : List Char → List Char → Bool
  | [], _ => true
  | _ :: _, [] => false
  | p :: ps, c :: cs => p == c && charsStartWith ps cs

/-- Python substring test `pat in s` (character lists). -/
def colNameHas (pat : List Char) : List Char → Bool
  | [] => charsStartWith pat []
  | c :: cs => charsStartWith pat (c :: cs) || colNameHas pat cs

/-- Description/amount slot columns: names containing the fixed substrings,
each family sorted lexicographically, then paired positionally by `zip`
(truncating to the shorter family, as the Python `zip` does). -/
def fedexSlots (t : Table) : List (String × String) :=
  (List.insertionSort (fun a b => a.data ≤ b.data)
      (t.cols.filter (fun c => colNameHas "Tracking ID Charge Description".data c.data))).zip
    (List.insertionSort (fun a b => a.data ≤ b.data)
      (t.cols.filter (fun c => colNameHas "Tracking ID Charge Amount".data c.data)))

/-- The guard `pd.notna(desc) and desc != ""`. -/
def descOk (c : Cell) : Bool := !(isNA c) && !(c == Cell.str "")

/-- Contribution of one slot to a reshaped row: a dict write (overwriting any
earlier slot with the same formatted description). -/
def fedexStep (cols : List String) (r : List Cell) (base : List (String × Cell))
    (sl : String × String) : List (String × Cell) :=
  let desc := getCellD cols r sl.1 (Cell.str "")
  let amt := getCellD cols r sl.2 (Cell.str "")
  if descOk desc then upsert (fedexTag (cellToString desc)) amt base else base

/-- One reshaped row: starts from `{"Tracking ID": row.get(tname, "")}` and
folds the slot writes left to right. -/
def buildFedexRow (cols : List String) (tname : String) (slots : List (String × String))
    (r : List Cell) : List (String × Cell) :=
  slots.foldl (fedexStep cols r) [("Tracking ID", getCellD cols r tname (Cell.str ""))]

/-- The reshaped FedEx table `result_df`: one output row per input row. -/
def process_fedex (t : Table)
    (tname : String := "Express or Ground Tracking ID") : List (List (String × Cell)) :=
  t.data.map (buildFedexRow t.cols tname (fedexSlots t))

/-- Model of the shown columns: the Tracking ID column then one tagged column per selected category. -/
def fedexShowCols (sel : List String) : List String :=
  "Tracking ID" :: sel.map fedexTag

/-- The rendered table for a non-empty selection:
`result_df[columns_to_show].dropna(subset=columns_to_show[1:], how="all")` —
restrict to the shown columns, then drop rows whose selected-category cells
are all NaN. -/
def fedexFiltered (t : Table) (tname : String) (sel : List String) :
    List (List (String × Cell)) :=
  ((process_fedex t tname).map
      (fun r => (fedexShowCols sel).map (fun c => (c, lookupNA r c)))).filter
    (fun r2 => ((fedexShowCols sel).drop 1).any (fun c => !(isNA (lookupNA r2 c))))

/-! ### Upload handlers (tab1/tab2 in `src/app.py`) for `.csv` files -/

/-- UTF-8 decoding as a byte-at-a-time state machine: first argument is the
number of continuation bytes still expected, second the partial code point. -/
def utf8Decode : Nat → Nat → List Nat → Option (List Nat)
  | 0, _, [] => some []
  | _+1, _, [] => none
  | 0, _, b :: rest =>
      if b < 128 then (utf8Decode 0 0 rest).map (fun cs => b :: cs)
      else if 194 ≤ b ∧ b ≤ 223 then utf8Decode 1 (b - 192) rest
      else if 224 ≤ b ∧ b ≤ 239 then utf8Decode 2 (b - 224) rest
      else if 240 ≤ b ∧ b ≤ 244 then utf8Decode 3 (b - 240) rest
      else none
  | 1, acc, b :: rest =>
      if 128 ≤ b ∧ b < 192 then
        (utf8Decode 0 0 rest).map (fun cs => (acc * 64 + (b - 128)) :: cs)
      else none
  | n+2, acc, b :: rest =>
      if 128 ≤ b ∧ b < 192 then utf8Decode (n+1) (acc * 64 + (b - 128)) rest
      else none

/-- Decoded text of an upload, when its bytes are valid UTF-8. -/
def utf8String (bs : List Nat) : Option String :=
  (utf8Decode 0 0 bs).map (fun cs => String.mk (cs.map Char.ofNat))

/-- Split a character list at every occurrence of a separator. -/
def splitOnChar (sep : Char) : List Char → List (List Char)
  | [] => [[]]
  | c :: cs =>
      match splitOnChar sep cs, c == sep with
      | rest, true => [] :: rest
      | [], false => [[c]]
      | r :: rs, false => (c :: r) :: rs

/-- Minimal model of the tabular split `pd.read_csv` performs on decoded text. -/
def parseCsv (s : String) : List (List String) :=
  (splitOnChar '\n' s.data).map (fun line => (splitOnChar ',' line).map String.mk)

/-- Model of `pd.read_csv(file)` on raw bytes with the default pandas encoding: decode as
UTF-8 then parse; invalid bytes raise a `UnicodeDecodeError`. -/
def read_csv (bs : List Nat) : Except String (List (List String)) :=
  match utf8String bs with
  | some s => Except.ok (parseCsv s)
  | none => Except.error "UnicodeDecodeError"

inductive LoadResult where
  | table (rows : List (List String))
  | readError (msg : String)
deriving DecidableEq, Repr

/-- The upload handler of either tab for a `.csv` upload (lines 125-139 and
147-161): one `pd.read_csv` attempt inside `try/except`; on an exception the
error is reported and no table is handed on. -/
def uploadCsvHandler (bs : List Nat) : LoadResult :=
  match read_csv bs with
  | Except.ok t => LoadResult.table t
  | Except.error e => LoadResult.readError ("Error reading file: " ++ e)

/-! ### Summation lemmas used by the conservation argument for the pivot -/

theorem sum_map_addQ {ρ : Type} (l : List ρ) (f g : ρ → ℚ) :
    (l.map (fun x => f x + g x)).sum = (l.map f).sum + (l.map g).sum := by
  induction l with
  | nil => simp
  | cons a l ih =>
    simp only [List.map_cons, List.sum_cons, ih]
    ring

theorem sum_map_ite_of_not_mem {κ : Type} [DecidableEq κ] {ks : List κ} {k : κ} (x : ℚ)
    (hk : k ∉ ks) : (ks.map (fun j => if k = j then x else 0)).sum = 0 := by
  induction ks with
  | nil => rfl
  | cons j js ih =>
    have h1 : k ≠ j := fun he => hk (he ▸ List.mem_cons_self j js)
    have h2 : k ∉ js := fun hm => hk (List.mem_cons_of_mem _ hm)
    simp [h1, ih h2]

theorem sum_map_ite_of_mem {κ : Type} [DecidableEq κ] {ks : List κ} {k : κ} (x : ℚ)
    (hk : k ∈ ks) (hnd : ks.Nodup) : (ks.map (fun j => if k = j then x else 0)).sum = x := by
  induction ks with
  | nil => cases hk
  | cons j js ih =>
    rcases List.mem_cons.mp hk with he | hm
    · subst he
      have h2 : k ∉ js := (List.nodup_cons.mp hnd).1
      simp [sum_map_ite_of_not_mem x h2]
    · have h1 : k ≠ j := fun he => (List.nodup_cons.mp hnd).1 (he ▸ hm)
      simp [h1, ih hm (List.nodup_cons.mp hnd).2]

/-- Summing bucket-by-bucket over a duplicate-free cover of bucket labels
equals summing the whole list. -/
theorem sum_filter_partition {ρ κ : Type} [DecidableEq κ] (key : ρ → κ) (f : ρ → ℚ) :
    ∀ (l : List ρ) (ks : List κ), ks.Nodup → (∀ r ∈ l, key r ∈ ks) →
      (ks.map (fun k => ((l.filter (fun r => decide (key r = k))).map f).sum)).sum
        = (l.map f).sum := by
  intro l
  induction l with
  | nil => intro ks _ _; simp
  | cons r l ih =>
    intro ks hnd hcov
    have hr : key r ∈ ks := hcov r (List.mem_cons_self _ _)
    have hcov' : ∀ x ∈ l, key x ∈ ks := fun x hx => hcov x (List.mem_cons_of_mem _ hx)
    have hstep : ∀ k : κ,
        (((r :: l).filter (fun x => decide (key x = k))).map f).sum
          = (if key r = k then f r else 0)
            + ((l.filter (fun x => decide (key x = k))).map f).sum := by
      intro k
      by_cases hk : key r = k
      · simp [List.filter_cons, hk]
      · simp [List.filter_cons, hk]
    rw [List.map_congr_left (fun k _ => hstep k),
      sum_map_addQ ks (fun k => if key r = k then f r else 0)
        (fun k => ((l.filter (fun x => decide (key x = k))).map f).sum),
      sum_map_ite_of_mem (f r) hr hnd, ih ks hnd hcov']
    simp

/-- Filtering by a conjunction is filtering twice. -/
theorem filter_decide_and {ρ : Type} (p q : ρ → Prop) [DecidablePred p] [DecidablePred q]
    (l : List ρ) :
    l.filter (fun r => decide (p r ∧ q r))
      = (l.filter (fun r => decide (p r))).filter (fun r => decide (q r)) := by
  rw [List.filter_filter]
  exact List.filter_congr fun a _ => by
    by_cases hp : p a <;> by_cases hq : q a <;> simp [hp, hq]

/-! ### Structural lemmas about the UPS pivot -/

theorem process_ups_rendered {t : Table} {sel : List Cell} {t2 : Table} {piv : List PivotRow}
    (h : process_ups t sel = (t2, UpsResult.rendered piv)) :
    t2 = coerceTable (stripHeaders t) ∧ piv = upsPivot (coerceTable (stripHeaders t)) sel := by
  unfold process_ups at h
  by_cases h1 : amount_col ∈ (stripHeaders t).cols
  · rw [if_pos h1] at h
    by_cases h2 : (ups_base_cols.all
        (fun c => decide (c ∈ (coerceTable (stripHeaders t)).cols))) = true
    · rw [if_pos h2] at h
      by_cases h3 : sel = []
      · rw [if_pos h3] at h
        injection h with ha hb
        exact UpsResult.noConfusion hb
      · rw [if_neg h3] at h
        injection h with ha hb
        injection hb with hc
        exact ⟨ha.symm, hc.symm⟩
    · rw [if_neg h2] at h
      injection h with ha hb
      exact UpsResult.noConfusion hb
  · rw [if_neg h1] at h
    injection h with ha hb
    exact UpsResult.noConfusion hb

theorem upsPivot_map_key (t : Table) (sel : List Cell) :
    (upsPivot t sel).map PivotRow.key = pivotKeys t sel := by
  unfold upsPivot
  rw [List.map_map]
  exact (List.map_congr_left fun k _ => rfl).trans (List.map_id _)

theorem upsPivot_map_total (t : Table) (sel : List Cell) :
    (upsPivot t sel).map PivotRow.total = (pivotKeys t sel).map (pivotTotal t sel) := by
  unfold upsPivot
  rw [List.map_map]
  exact List.map_congr_left fun k _ => rfl

theorem pivotKeys_nodup (t : Table) (sel : List Cell) : (pivotKeys t sel).Nodup :=
  (List.perm_insertionSort keyLe _).symm.nodup (List.nodup_dedup _)

theorem pivotCats_nodup (t : Table) (sel : List Cell) : (pivotCats t sel).Nodup :=
  (List.perm_insertionSort cellLe _).symm.nodup (List.nodup_dedup _)

theorem mem_pivotKeys (t : Table) (sel : List Cell) (k : Cell × Cell) :
    k ∈ pivotKeys t sel ↔ k ∈ (pivotRows t sel).map (rowKey t.cols) := by
  unfold pivotKeys
  rw [List.mem_insertionSort, List.mem_dedup]

theorem mem_pivotCats (t : Table) (sel : List Cell) (c : Cell) :
    c ∈ pivotCats t sel ↔ c ∈ (pivotRows t sel).map (rowCharge t.cols) := by
  unfold pivotCats
  rw [List.mem_insertionSort, List.mem_dedup]

theorem pivotCell_getD (t : Table) (sel : List Cell) (k : Cell × Cell) (c : Cell) :
    (pivotCell t sel k c).getD 0 = ((cellGroup t sel k c).map (rowAmount t.cols)).sum := by
  unfold pivotCell
  split
  · rename_i hemp
    rw [hemp]
    rfl
  · rfl

theorem cellGroup_eq (t : Table) (sel : List Cell) (k : Cell × Cell) (c : Cell) :
    cellGroup t sel k c
      = ((pivotRows t sel).filter (fun r => decide (rowKey t.cols r = k))).filter
          (fun r => decide (rowCharge t.cols r = c)) := by
  unfold cellGroup
  exact filter_decide_and _ _ _

theorem pivotTotal_eq (t : Table) (sel : List Cell) (k : Cell × Cell) :
    pivotTotal t sel k
      = (((pivotRows t sel).filter (fun r => decide (rowKey t.cols r = k))).map
          (rowAmount t.cols)).sum := by
  unfold pivotTotal
  rw [List.map_congr_left (fun c _ => pivotCell_getD t sel k c),
    List.map_congr_left (fun c _ => by rw [cellGroup_eq t sel k c])]
  exact sum_filter_partition (rowCharge t.cols) (rowAmount t.cols) _ _
    (pivotCats_nodup t sel)
    (fun r hr => (mem_pivotCats t sel _).mpr
      (List.mem_map_of_mem _ (List.mem_filter.mp hr).1))

/-- Conservation of totals across the pivot, at the level of `upsPivot`. -/
theorem upsPivot_total_sum (t : Table) (sel : List Cell) :
    ((upsPivot t sel).map PivotRow.total).sum
      = ((pivotRows t sel).map (rowAmount t.cols)).sum := by
  rw [upsPivot_map_total]
  unfold pivotKeys
  rw [((List.perm_insertionSort keyLe
      (((pivotRows t sel).map (rowKey t.cols)).dedup)).map (pivotTotal t sel)).sum_eq,
    List.map_congr_left (fun k _ => pivotTotal_eq t sel k)]
  exact sum_filter_partition (rowKey t.cols) (rowAmount t.cols) _ _
    (List.nodup_dedup _)
    (fun r hr => List.mem_dedup.mpr (List.mem_map_of_mem _ hr))

/-! ### Structural lemmas about the FedEx reshaper -/

/-- Whether one slot writes output column `k` for row `r`: its description
passes the guard and its tagged, formatted value is `k`. -/
def slotWrites (cols : List String) (r : List Cell) (k : String) (sl : String × String) : Bool :=
  descOk (getCellD cols r sl.1 (Cell.str "")) &&
    (fedexTag (cellToString (getCellD cols r sl.1 (Cell.str ""))) == k)

theorem assocGet_fedexStep (cols : List String) (r : List Cell) (k : String)
    (base : List (String × Cell)) (sl : String × String) :
    assocGet (fedexStep cols r base sl) k
      = if slotWrites cols r k sl then some (getCellD cols r sl.2 (Cell.str ""))
        else assocGet base k := by
  unfold fedexStep slotWrites
  by_cases hd : descOk (getCellD cols r sl.1 (Cell.str "")) = true
  · by_cases hk : fedexTag (cellToString (getCellD cols r sl.1 (Cell.str ""))) = k
    · simp [hd, hk, assocGet_upsert]
    · simp [hd, hk, assocGet_upsert]
  · simp [hd]

theorem getLast?_cons_ne_nil {α : Type} (a : α) {l : List α} (h : l ≠ []) :
    (a :: l).getLast? = l.getLast? := by
  cases l with
  | nil => exact absurd rfl h
  | cons b bs => exact List.getLast?_cons_cons

/-- A dict built by folding slot writes reads, at key `k`, as the amount of the
last slot that wrote `k`, or falls back to the starting dict. -/
theorem assocGet_foldl (cols : List String) (r : List Cell) (k : String) :
    ∀ (slots : List (String × String)) (base : List (String × Cell)),
      assocGet (slots.foldl (fedexStep cols r) base) k
        = match (slots.filter (slotWrites cols r k)).getLast? with
          | some sl => some (getCellD cols r sl.2 (Cell.str ""))
          | none => assocGet base k := by
  intro slots
  induction slots with
  | nil => intro base; rfl
  | cons s ss ih =>
    intro base
    rw [List.foldl_cons, ih (fedexStep cols r base s), List.filter_cons]
    by_cases hw : slotWrites cols r k s = true
    · rw [if_pos hw]
      cases hlast : (ss.filter (slotWrites cols r k)).getLast? with
      | some sl =>
        have hne : ss.filter (slotWrites cols r k) ≠ [] := by
          intro he
          rw [he] at hlast
          cases hlast
        rw [getLast?_cons_ne_nil s hne, hlast]
      | none =>
        have he : ss.filter (slotWrites cols r k) = [] :=
          List.getLast?_eq_none_iff.mp hlast
        rw [he]
        show assocGet (fedexStep cols r base s) k = some (getCellD cols r s.2 (Cell.str ""))
        rw [assocGet_fedexStep, if_pos hw]
    · rw [if_neg hw]
      cases hlast : (ss.filter (slotWrites cols r k)).getLast? with
      | some sl => rfl
      | none =>
        show assocGet (fedexStep cols r base s) k = assocGet base k
        rw [assocGet_fedexStep, if_neg hw]

/-- A tagged description column name is never the row-key column name. -/
theorem fedexTag_ne (s : String) : fedexTag s ≠ "Tracking ID" := by
  intro h
  have hd : s.data ++ " (PL-DZ)".data = "Tracking ID".data := by
    have h2 := congrArg String.data h
    rw [fedexTag, String.data_append] at h2
    exact h2
  have hlen : s.data.length + 8 = 11 := by
    have h3 := congrArg List.length hd
    simpa using h3
  have hlen3 : s.data.length = 3 := by omega
  have hdrop : " (PL-DZ)".data = List.drop 3 "Tracking ID".data := by
    rw [← hd, ← hlen3, List.drop_left]
  exact absurd hdrop (by decide)

/-- Reading a dict of the tabulated form. -/
theorem assocGet_tabulate (cols : List String) (g : String → Cell) (k : String) :
    assocGet (cols.map (fun c => (c, g c))) k = if k ∈ cols then some (g k) else none := by
  induction cols with
  | nil => simp [assocGet]
  | cons c cs ih =>
    simp only [List.map_cons, assocGet]
    by_cases hc : c = k
    · subst hc
      simp
    · rw [if_neg hc, ih]
      by_cases hk : k ∈ cs
      · rw [if_pos hk, if_pos (List.mem_cons_of_mem _ hk)]
      · have hnot : ¬ k ∈ c :: cs := by
          intro hm
          rcases List.mem_cons.mp hm with he | hm2
          · exact hc he.symm
          · exact hk hm2
        rw [if_neg hk, if_neg hnot]

theorem any_congr_mem {α : Type} {p q : α → Bool} :
    ∀ {l : List α}, (∀ a ∈ l, p a = q a) → l.any p = l.any q := by
  intro l
  induction l with
  | nil => intro _; rfl
  | cons a l ih =>
    intro h
    simp only [List.any_cons, h a (List.mem_cons_self a l),
      ih (fun x hx => h x (List.mem_cons_of_mem _ hx))]

/-! ### Concrete inputs used by witnesses and counterexamples -/

/-- A UPS upload whose `DTrans Amount` column is absent (all other required
columns present). -/
def upsMissingAmount : Table :=
  { cols := ["Lead Shipment Number", "Shipment Reference Number 1", "Charge Description"]
    data := [[Cell.num 100, Cell.str "REF1", Cell.str "Residential Surcharge"]] }

/-- Scenario B of the spec: two rows sharing Shipment Key `(100, "REF1")`,
both `Residential Surcharge`, amounts 3 and 2. -/
def upsScenarioB : Table :=
  { cols := ["Lead Shipment Number", "Shipment Reference Number 1",
             "Charge Description", "DTrans Amount"]
    data := [[Cell.num 100, Cell.str "REF1", Cell.str "Residential Surcharge", Cell.num 3],
             [Cell.num 100, Cell.str "REF1", Cell.str "Residential Surcharge", Cell.num 2]] }

def upsSelB : List Cell := [Cell.str "Residential Surcharge"]

/-- Two shipments where the smaller key has the smaller Total: pandas orders
the pivot by key, so the Total column comes out ascending here. -/
def upsTwoKeys : Table :=
  { cols := ["Lead Shipment Number", "Shipment Reference Number 1",
             "Charge Description", "DTrans Amount"]
    data := [[Cell.str "A", Cell.str "R", Cell.str "X", Cell.num 1],
             [Cell.str "B", Cell.str "R", Cell.str "X", Cell.num 5]] }

/-! ### Claims -/

/-- Claim C1 (code bug): the spec says a UPS table missing any required
column — in particular `DTrans Amount` — aborts with a descriptive error
naming the columns found, without raising.  The check the code itself makes at line 74
includes `DTrans Amount` in `base_cols`, but line 70 indexes
`df[amount_col]` first, so on this input the function raises a
`KeyError` before the check can run, and no `missingCols` error is ever
produced. -/
theorem claim_C1_code_bug_eval :
    process_ups upsMissingAmount []
        = (stripHeaders upsMissingAmount, UpsResult.raised "KeyError: DTrans Amount")
      ∧ ∀ found, (process_ups upsMissingAmount []).2 ≠ UpsResult.missingCols found := by
  constructor
  · rfl
  · intro found h
    have h0 : UpsResult.raised "KeyError: DTrans Amount" = UpsResult.missingCols found := h
    exact UpsResult.noConfusion h0

/-- A filtered UPS row whose `Lead Shipment Number` is NaN: `pivot_table`
(via `groupby`) drops it, so its shipment key gets no output row. -/
def upsNaKey : Table :=
  { cols := ["Lead Shipment Number", "Shipment Reference Number 1",
             "Charge Description", "DTrans Amount"]
    data := [[Cell.na, Cell.str "R", Cell.str "X", Cell.num 5]] }

/-- Counterexample for C2: on `upsNaKey` with selection `[X]`, the shipment
key `(NaN, R)` is a distinct key among the filtered rows, yet the rendered
pivot is empty — there is no output row for that key, refuting "exactly one
output row per distinct Shipment Key among the filtered rows". -/
theorem claim_C2_counterexample :
    (process_ups upsNaKey [Cell.str "X"]).2 = UpsResult.rendered []
      ∧ (Cell.na, Cell.str "R")
          ∈ (filteredRows (coerceTable (stripHeaders upsNaKey)) [Cell.str "X"]).map
              (rowKey (coerceTable (stripHeaders upsNaKey)).cols)
      ∧ ∀ pr ∈ renderedPivot (process_ups upsNaKey [Cell.str "X"]).2,
          pr.key ≠ (Cell.na, Cell.str "R") := by
  refine ⟨by decide, by decide, ?_⟩
  intro pr hpr
  have h0 : pr ∈ ([] : List PivotRow) := hpr
  cases h0

/-- Claim C2 (corrected): for every UPS table and non-empty selection, the
rendered pivot has exactly one row per distinct shipment key of the KEPT
filtered rows — those with non-null `Lead Shipment Number`,
`Shipment Reference Number 1` and `Charge Description`; `pivot_table` drops
rows with a NaN grouping key — one column per charge description present in
the kept rows, and each cell is the SUM of the coerced amounts over that
group and category. -/
theorem claim_C2_amended (t : Table) (sel : List Cell) (hsel : sel ≠ []) (t2 : Table)
    (piv : List PivotRow) (h : process_ups t sel = (t2, UpsResult.rendered piv)) :
    ((piv.map PivotRow.key).Nodup
        ∧ ∀ k, k ∈ piv.map PivotRow.key ↔ k ∈ (pivotRows t2 sel).map (rowKey t2.cols))
      ∧ ((pivotCats t2 sel).Nodup
        ∧ ∀ c, c ∈ pivotCats t2 sel ↔ c ∈ (pivotRows t2 sel).map (rowCharge t2.cols))
      ∧ ∀ pr ∈ piv, pr.cells = (pivotCats t2 sel).map (fun c =>
          (c, if cellGroup t2 sel pr.key c = [] then none
              else some (((cellGroup t2 sel pr.key c).map (rowAmount t2.cols)).sum))) := by
  obtain ⟨ht2, hpiv⟩ := process_ups_rendered h
  subst ht2
  subst hpiv
  refine ⟨⟨?_, ?_⟩, ⟨pivotCats_nodup _ _, fun c => mem_pivotCats _ _ c⟩, ?_⟩
  · rw [upsPivot_map_key]
    exact pivotKeys_nodup _ _
  · intro k
    rw [upsPivot_map_key]
    exact mem_pivotKeys _ _ k
  · intro pr hpr
    unfold upsPivot at hpr
    obtain ⟨k, hk, rfl⟩ := List.mem_map.mp hpr
    rfl

/-- Witness for the amended C2 at Scenario B (all keys non-null there): the
selection is non-empty, the theorem applies, and the Total of the single
pivot row is 5 (3 and 2 summed, not 2). -/
theorem claim_C2_amended_witness :
    upsSelB ≠ []
      ∧ ((upsPivot (coerceTable (stripHeaders upsScenarioB)) upsSelB).map PivotRow.key).Nodup
      ∧ (upsPivot (coerceTable (stripHeaders upsScenarioB)) upsSelB).map PivotRow.total = [5] := by
  refine ⟨by decide, (claim_C2_amended upsScenarioB upsSelB (by decide) _ _ rfl).1.1, ?_⟩
  have h : (upsPivot (coerceTable (stripHeaders upsScenarioB)) upsSelB).map PivotRow.total
      = [((3:ℚ) + (2 + 0)) + 0] := rfl
  rw [h]
  norm_num

/-- Counterexample for C3: on `upsTwoKeys` with selection `[X]` the rendered
Total column of the pivot is the list holding 1 then 5, which is not in descending order. -/
theorem claim_C3_counterexample :
    ¬ List.Sorted (fun a b : ℚ => b ≤ a)
        ((renderedPivot (process_ups upsTwoKeys [Cell.str "X"]).2).map PivotRow.total) := by
  have h : (renderedPivot (process_ups upsTwoKeys [Cell.str "X"]).2).map PivotRow.total
      = [((1:ℚ) + 0) + 0, ((5:ℚ) + 0) + 0] := rfl
  rw [h]
  simp [List.sorted_cons]

/-- Claim C3 (corrected): the code never sorts by `Total`; the pivot rows
come out in the pandas group-key order, i.e. ascending in the Shipment Key
(lexicographically on the pair), and `Total` plays no role in the order. -/
theorem claim_C3_amended (t : Table) (sel : List Cell) (t2 : Table) (piv : List PivotRow)
    (h : process_ups t sel = (t2, UpsResult.rendered piv)) :
    List.Sorted keyLe (piv.map PivotRow.key) := by
  obtain ⟨ht2, hpiv⟩ := process_ups_rendered h
  subst hpiv
  rw [upsPivot_map_key]
  unfold pivotKeys
  exact List.sorted_insertionSort keyLe _

/-- Witness for the amended C3 at the two-shipment input. -/
theorem claim_C3_amended_witness :
    List.Sorted keyLe
      ((upsPivot (coerceTable (stripHeaders upsTwoKeys)) [Cell.str "X"]).map PivotRow.key) :=
  claim_C3_amended upsTwoKeys [Cell.str "X"] _ _ rfl

/-- Counterexample for C4: on `upsNaKey` with selection `[X]`, the sum of the
Total column is 0 (the NaN-keyed row is dropped from the pivot) while the sum
of the coerced amounts over all filtered rows is 5 — conservation over ALL
filtered rows fails. -/
theorem claim_C4_counterexample :
    ((renderedPivot (process_ups upsNaKey [Cell.str "X"]).2).map PivotRow.total).sum = 0
      ∧ ((filteredRows (coerceTable (stripHeaders upsNaKey)) [Cell.str "X"]).map
          (rowAmount (coerceTable (stripHeaders upsNaKey)).cols)).sum = 5
      ∧ (0:ℚ) ≠ 5 := by
  refine ⟨rfl, ?_, by norm_num⟩
  have h : ((filteredRows (coerceTable (stripHeaders upsNaKey)) [Cell.str "X"]).map
      (rowAmount (coerceTable (stripHeaders upsNaKey)).cols)).sum = (5:ℚ) + 0 := rfl
  rw [h]
  norm_num

/-- Claim C4 (corrected): conservation of totals over the rows the pivot
keeps — the sum of the `Total` column over the pivot rows equals the sum of
the coerced amounts over the filtered rows with non-null grouping keys; rows
whose `Lead Shipment Number`, `Shipment Reference Number 1` or
`Charge Description` is NaN are dropped by `pivot_table` and their amounts
never reach any Total (NaN amounts contribute nothing on either side). -/
theorem claim_C4_amended (t : Table) (sel : List Cell) (hsel : sel ≠ []) (t2 : Table)
    (piv : List PivotRow) (h : process_ups t sel = (t2, UpsResult.rendered piv)) :
    (piv.map PivotRow.total).sum = ((pivotRows t2 sel).map (rowAmount t2.cols)).sum := by
  obtain ⟨ht2, hpiv⟩ := process_ups_rendered h
  subst ht2
  subst hpiv
  exact upsPivot_total_sum _ _

/-- Witness for the amended C4 at Scenario B. -/
theorem claim_C4_amended_witness :
    upsSelB ≠ []
      ∧ ((upsPivot (coerceTable (stripHeaders upsScenarioB)) upsSelB).map PivotRow.total).sum
          = ((pivotRows (coerceTable (stripHeaders upsScenarioB)) upsSelB).map
              (rowAmount (coerceTable (stripHeaders upsScenarioB)).cols)).sum :=
  ⟨by decide, claim_C4_amended upsScenarioB upsSelB (by decide) _ _ rfl⟩

/-- FedEx row carrying the same description in two slots (amounts 3 then 2). -/
def fedexDupRow : List Cell :=
  [Cell.str "TID1", Cell.str "Residential", Cell.num 3, Cell.str "Residential", Cell.num 2]

def fedexDup : Table :=
  { cols := ["Express or Ground Tracking ID",
             "Tracking ID Charge Description 1", "Tracking ID Charge Amount 1",
             "Tracking ID Charge Description 2", "Tracking ID Charge Amount 2"]
    data := [fedexDupRow] }

/-- Same columns, plus a second row with no populated charge slots. -/
def fedexTwo : Table :=
  { cols := fedexDup.cols
    data := [fedexDupRow,
             [Cell.str "TID2", Cell.na, Cell.na, Cell.na, Cell.na]] }

/-- FedEx input lacking the tracking-id column. -/
def fedexNoTid : Table :=
  { cols := ["Tracking ID Charge Description 1", "Tracking ID Charge Amount 1"]
    data := [[Cell.str "Residential", Cell.num 3]] }

/-- Claim C5 (confirmed): when a charge-description value has at least one
guard-passing slot in a row — in particular when it appears in several — the
cell of the reshaped row for the column of that description is the amount of the LAST
such slot in slot iteration order (dict writes overwrite; no summing). -/
theorem claim_C5 (t : Table) (tname : String) (r : List Cell) (hr : r ∈ t.data)
    (d : String) (sl : String × String)
    (hlast : ((fedexSlots t).filter (slotWrites t.cols r (fedexTag d))).getLast? = some sl) :
    buildFedexRow t.cols tname (fedexSlots t) r ∈ process_fedex t tname
      ∧ assocGet (buildFedexRow t.cols tname (fedexSlots t) r) (fedexTag d)
          = some (getCellD t.cols r sl.2 (Cell.str "")) := by
  constructor
  · exact List.mem_map_of_mem _ hr
  · unfold buildFedexRow
    rw [assocGet_foldl, hlast]

/-- Witness for C5: with amounts 3 then 2 for `Residential`, the output cell
is 2 (the amount of the later slot), not the sum 5. -/
theorem claim_C5_witness :
    fedexDupRow ∈ fedexDup.data
      ∧ ((fedexSlots fedexDup).filter
            (slotWrites fedexDup.cols fedexDupRow (fedexTag "Residential"))).getLast?
          = some ("Tracking ID Charge Description 2", "Tracking ID Charge Amount 2")
      ∧ assocGet (buildFedexRow fedexDup.cols "Express or Ground Tracking ID"
            (fedexSlots fedexDup) fedexDupRow) (fedexTag "Residential")
          = some (Cell.num 2)
      ∧ assocGet (buildFedexRow fedexDup.cols "Express or Ground Tracking ID"
            (fedexSlots fedexDup) fedexDupRow) (fedexTag "Residential")
          ≠ some (Cell.num 5) := by
  refine ⟨by decide, by decide, ?_, by decide⟩
  have h := (claim_C5 fedexDup "Express or Ground Tracking ID" fedexDupRow (by decide)
    "Residential" ("Tracking ID Charge Description 2", "Tracking ID Charge Amount 2")
    (by decide)).2
  rw [h]
  decide

/-- Claim C6 (confirmed): the reshaped FedEx table has exactly one output row
per input row; the reshaper takes no selection, so this holds regardless of
any later selection. -/
theorem claim_C6 (t : Table) (tname : String) :
    (process_fedex t tname).length = t.data.length := by
  unfold process_fedex
  exact List.length_map _ _

/-- Claim C7 (confirmed): for a non-empty selection, the rendered FedEx table
has exactly the Tracking ID column plus one column per selected category, and
keeps exactly the reshaped rows with at least one non-missing
selected-category cell (rows with all selected cells missing are dropped). -/
theorem claim_C7 (t : Table) (tname : String) (sel : List String) (hsel : sel ≠ []) :
    (∀ row ∈ fedexFiltered t tname sel, row.map Prod.fst = fedexShowCols sel)
      ∧ fedexFiltered t tname sel
          = ((process_fedex t tname).filter
              (fun r => sel.any (fun p => !(isNA (lookupNA r (fedexTag p)))))).map
              (fun r => (fedexShowCols sel).map (fun c => (c, lookupNA r c))) := by
  have hpred : ∀ r : List (String × Cell),
      ((fedexShowCols sel).drop 1).any
          (fun c => !(isNA (lookupNA
            ((fedexShowCols sel).map (fun c2 => (c2, lookupNA r c2))) c)))
        = sel.any (fun p => !(isNA (lookupNA r (fedexTag p)))) := by
    intro r
    have hdrop : (fedexShowCols sel).drop 1 = sel.map fedexTag := rfl
    rw [hdrop, List.any_map]
    apply any_congr_mem
    intro p hp
    have hmem : fedexTag p ∈ fedexShowCols sel :=
      List.mem_cons_of_mem _ (List.mem_map_of_mem _ hp)
    show (!(isNA (lookupNA ((fedexShowCols sel).map (fun c2 => (c2, lookupNA r c2)))
            (fedexTag p))))
        = (!(isNA (lookupNA r (fedexTag p))))
    unfold lookupNA
    rw [assocGet_tabulate, if_pos hmem]
    rfl
  constructor
  · intro row hrow
    unfold fedexFiltered at hrow
    obtain ⟨hrow2, -⟩ := List.mem_filter.mp hrow
    obtain ⟨r, -, rfl⟩ := List.mem_map.mp hrow2
    rw [List.map_map]
    exact (List.map_congr_left fun c _ => rfl).trans (List.map_id _)
  · unfold fedexFiltered
    rw [List.filter_map]
    exact congrArg _ (List.filter_congr fun r _ => hpred r)

/-- Witness for C7: selecting `Residential` on the two-row table keeps the
row that has the charge and drops the row whose selected cells are all NaN. -/
theorem claim_C7_witness :
    (["Residential"] : List String) ≠ []
      ∧ (∀ row ∈ fedexFiltered fedexTwo "Express or Ground Tracking ID" ["Residential"],
          row.map Prod.fst = fedexShowCols ["Residential"])
      ∧ fedexFiltered fedexTwo "Express or Ground Tracking ID" ["Residential"]
          = [[("Tracking ID", Cell.str "TID1"), ("Residential (PL-DZ)", Cell.num 2)]] := by
  refine ⟨by decide,
    (claim_C7 fedexTwo "Express or Ground Tracking ID" ["Residential"] (by decide)).1,
    by decide⟩

/-- Counterexample for C8: the byte 0xFF is not valid UTF-8; the upload
handler reports a read error and hands no table on — no Latin-1 retry
happens, contrary to the claim. -/
theorem claim_C8_counterexample :
    utf8String [255] = none
      ∧ uploadCsvHandler [255]
          = LoadResult.readError "Error reading file: UnicodeDecodeError"
      ∧ ∀ rows, uploadCsvHandler [255] ≠ LoadResult.table rows := by
  refine ⟨by decide, by decide, ?_⟩
  intro rows h
  have h0 : LoadResult.readError "Error reading file: UnicodeDecodeError"
      = LoadResult.table rows := h
  exact LoadResult.noConfusion h0

/-- Claim C8 (corrected): a CSV upload whose bytes fail UTF-8 decoding is
reported as a read error and yields no table; the handler makes a single
`pd.read_csv` attempt inside try/except and has no encoding fallback. -/
theorem claim_C8_amended (bs : List Nat) (h : utf8String bs = none) :
    uploadCsvHandler bs = LoadResult.readError "Error reading file: UnicodeDecodeError" := by
  unfold uploadCsvHandler read_csv
  rw [h]
  rfl

/-- Witness for the amended C8 at the invalid byte 0xFF. -/
theorem claim_C8_amended_witness :
    uploadCsvHandler [255] = LoadResult.readError "Error reading file: UnicodeDecodeError" :=
  claim_C8_amended [255] (by decide)

/-- Claim C9 (confirmed): when the tracking-id column is absent, the reshaper
does not fail and the Tracking ID value of every output row is the empty
string. -/
theorem claim_C9 (t : Table) (tname : String) (hmiss : tname ∉ t.cols) :
    ∀ row ∈ process_fedex t tname, lookupNA row "Tracking ID" = Cell.str "" := by
  intro row hrow
  unfold process_fedex at hrow
  obtain ⟨r, -, rfl⟩ := List.mem_map.mp hrow
  unfold lookupNA buildFedexRow
  rw [assocGet_foldl]
  have hfilter : (fedexSlots t).filter (slotWrites t.cols r "Tracking ID") = [] := by
    rw [List.filter_eq_nil_iff]
    intro sl _
    unfold slotWrites
    intro hcontra
    have h2 := (Bool.and_eq_true _ _).mp hcontra
    have h3 : fedexTag (cellToString (getCellD t.cols r sl.1 (Cell.str ""))) = "Tracking ID" := by
      simpa using h2.2
    exact fedexTag_ne _ h3
  rw [hfilter]
  show (assocGet [("Tracking ID", getCellD t.cols r tname (Cell.str ""))]
      "Tracking ID").getD Cell.na = Cell.str ""
  rw [getCellD_not_mem t.cols r tname (Cell.str "") hmiss]
  rfl

/-- Witness for C9: a table with only charge-slot columns reshapes without
failing, with an empty-string tracking id. -/
theorem claim_C9_witness :
    ("Express or Ground Tracking ID" ∉ fedexNoTid.cols)
      ∧ (∀ row ∈ process_fedex fedexNoTid "Express or Ground Tracking ID",
          lookupNA row "Tracking ID" = Cell.str "")
      ∧ process_fedex fedexNoTid "Express or Ground Tracking ID"
          = [[("Tracking ID", Cell.str ""), ("Residential (PL-DZ)", Cell.num 3)]] :=
  ⟨by decide, claim_C9 fedexNoTid "Express or Ground Tracking ID" (by decide), by decide⟩

/-- Claim C10 (confirmed): `process_ups` mutates the dataframe of the caller before
the required-column validation: whenever the stripped amount column exists,
the table the caller holds afterwards is the header-stripped, amount-coerced table —
also on inputs whose processing then aborts with the missing-columns error. -/
theorem claim_C10 (t : Table) (sel : List Cell) (h : amount_col ∈ (stripHeaders t).cols) :
    (process_ups t sel).1 = coerceTable (stripHeaders t)
      ∧ ((¬ ∀ c ∈ ups_base_cols, c ∈ (stripHeaders t).cols) →
          (process_ups t sel).2 = UpsResult.missingCols (stripHeaders t).cols) := by
  unfold process_ups
  rw [if_pos h]
  constructor
  · by_cases h2 : (ups_base_cols.all
        (fun c => decide (c ∈ (coerceTable (stripHeaders t)).cols))) = true
    · rw [if_pos h2]
      by_cases h3 : sel = []
      · rw [if_pos h3]
      · rw [if_neg h3]
    · rw [if_neg h2]
  · intro hmiss
    have h2 : ¬ (ups_base_cols.all
        (fun c => decide (c ∈ (coerceTable (stripHeaders t)).cols))) = true := by
      intro hall
      apply hmiss
      intro c hc
      have h3 := List.all_eq_true.mp hall c hc
      simpa using h3
    rw [if_neg h2]
    rfl

/-- A UPS upload missing `Lead Shipment Number`, with a padded header and a
non-numeric amount: the aborting run still strips the headers and coerces
the text amount to missing in the table of the caller. -/
def upsFrameW : Table :=
  { cols := ["Shipment Reference Number 1", " Charge Description ", "DTrans Amount"]
    data := [[Cell.str "REF1", Cell.str "X", Cell.str "N/A"]] }

/-- Witness for C10 at a concrete aborting input. -/
theorem claim_C10_witness :
    amount_col ∈ (stripHeaders upsFrameW).cols
      ∧ (process_ups upsFrameW []).1 = coerceTable (stripHeaders upsFrameW)
      ∧ (¬ ∀ c ∈ ups_base_cols, c ∈ (stripHeaders upsFrameW).cols)
      ∧ (process_ups upsFrameW []).2 = UpsResult.missingCols (stripHeaders upsFrameW).cols
      ∧ (process_ups upsFrameW []).1.cols
          = ["Shipment Reference Number 1", "Charge Description", "DTrans Amount"]
      ∧ (process_ups upsFrameW []).1.data = [[Cell.str "REF1", Cell.str "X", Cell.na]] := by
  have h := claim_C10 upsFrameW [] (by decide)
  exact ⟨by decide, h.1, by decide, h.2 (by decide), by decide, by decide⟩
